import Mathlib

/-!
Verification of the position-classification, resource-selection and
mistake-learning subsystem of the `sna` chess bot repository.

The Python sources are shallowly embedded:

* `Board` holds exactly the components of a FEN record (piece placement,
  side to move, castling rights, en-passant square, halfmove clock and
  fullmove number).  Python floats are modelled as exact rationals.
* Facilities of the external `python-chess` library that are not pure
  functions of the FEN record as embedded here (check detection and
  legal-move counting) are modelled as a `ChessOracle` of deterministic
  functions on boards; the spec treats move legality and generation as a
  given capability of an external collaborator.
* Randomness (`random.random`, `random.uniform`, `random.choice`) is made
  explicit: each draw is an argument of the embedded function.
-/

/-- Piece kinds of `python-chess` (`chess.PAWN` .. `chess.KING`). -/
inductive PieceType where
  | pawn | knight | bishop | rook | queen | king
  deriving DecidableEq, Repr

/-- A piece: kind plus colour (`true` is `chess.WHITE`, `false` is `chess.BLACK`). -/
structure Piece where
  pieceType : PieceType
  color : Bool
  deriving DecidableEq, Repr

/-- A board state as identified by its FEN serialization: piece placement over
the 64 squares (index `rank * 8 + file` as in `python-chess`, entry `none` for
an empty square), side to move, castling rights (encoded as a bitmask), the
en-passant square, the halfmove clock and the fullmove number. -/
structure Board where
  placement : List (Option Piece)
  turn : Bool
  castling : Nat
  epSquare : Option Nat
  halfmoveClock : Nat
  fullmoveNumber : Nat
  deriving DecidableEq, Repr

namespace Board

/-- Occupant of a square, `board.piece_at(square)`. -/
def pieceAt (b : Board) (s : Nat) : Option Piece :=
  b.placement.getD s none

/-- Number of occupied squares, `len(board.piece_map())`. -/
def pieceCount (b : Board) : Nat :=
  b.placement.countP (fun o => o.isSome)

/-- Number of half-moves played, `len(board.move_stack)`.  For a board reached
by playing out a game from the standard initial position (the only way boards
arise in the repository's game loops) this equals
`2 * (fullmove_number - 1)` plus one more when Black is to move, which is how
it is derived here from the FEN components. -/
def moveCount (b : Board) : Nat :=
  2 * (b.fullmoveNumber - 1) + (if b.turn then 0 else 1)

end Board

/-- Numeric code of a square occupant, used by the FEN encoding. -/
def pieceCode : Option Piece → Nat
  | none => 0
  | some p =>
    let k : Nat :=
      match p.pieceType with
      | PieceType.pawn => 0
      | PieceType.knight => 1
      | PieceType.bishop => 2
      | PieceType.rook => 3
      | PieceType.queen => 4
      | PieceType.king => 5
    1 + 2 * k + (if p.color then 1 else 0)

/-- Decoder inverting `pieceCode`. -/
def pieceDecode : Nat → Option Piece
  | 0 => none
  | n + 1 =>
    let k := (n / 2)
    let c := n % 2 = 1
    let pt :=
      match k with
      | 0 => PieceType.pawn
      | 1 => PieceType.knight
      | 2 => PieceType.bishop
      | 3 => PieceType.rook
      | 4 => PieceType.queen
      | _ => PieceType.king
    some ⟨pt, c⟩

/-- Numeric code of the en-passant field. -/
def epCode : Option Nat → Nat
  | none => 0
  | some s => s + 1

/-- The canonical serialization `board.fen()`: a FEN-equivalent encoding of
all six components of the board record, as a list of numbers. -/
def Board.fen (b : Board) : List Nat :=
  b.placement.length :: (b.placement.map pieceCode ++
    [(if b.turn then 1 else 0), b.castling, epCode b.epSquare,
     b.halfmoveClock, b.fullmoveNumber])

/-- Position hash: both `tournament_learning_system._get_position_hash` and
`deep_learning_chess_system._get_position_hash` compute
`hashlib.md5(board.fen().encode()).hexdigest()`.  MD5 is treated as
collision-free, so the hash is modelled as the FEN content itself. -/
def positionHash (b : Board) : List Nat :=
  b.fen

/-- External `python-chess` capabilities that are not pure functions of the
embedded FEN record: game-over detection, check detection and legal-move
counting.  Each is a deterministic function of the board. -/
structure ChessOracle where
  isGameOver : Board → Bool
  isCheck : Board → Bool
  legalMoveCount : Board → Nat



/-!
Feature extraction, `AdvancedPositionAnalyzer` of `advanced_hybrid_engine.py`.
-/

/-- Feature vector with the ten schema keys of `_extract_features`. -/
structure Features where
  piece_count : ℚ
  pawn_structure : ℚ
  center_control : ℚ
  development : ℚ
  king_safety : ℚ
  tactical_opportunities : ℚ
  position_complexity : ℚ
  material_balance : ℚ
  space_control : ℚ
  pawn_chain_structure : ℚ
  deriving DecidableEq, Repr

/-- Files adjacent to file `f` that lie on the board (`[file - 1, file + 1]`
restricted to `0..7`). -/
def adjacentFiles (f : Nat) : List Nat :=
  (if f = 0 then [] else [f - 1]) ++ (if f = 7 then [] else [f + 1])

/-- Embeds `_is_isolated_pawn`: no pawn of the same colour on an adjacent
file.  The Python code reads `board.piece_at(square).color` and is only
called on pawn squares; an empty square yields `true` here. -/
def isIsolatedPawn (b : Board) (s : Nat) : Bool :=
  match b.pieceAt s with
  | none => true
  | some p =>
    ! ((adjacentFiles (s % 8)).any fun af =>
        (List.range 8).any fun r =>
          b.pieceAt (r * 8 + af) == some ⟨PieceType.pawn, p.color⟩)

/-- Squares holding a pawn of either colour, in ascending square order
(`board.pieces(PAWN, WHITE) | board.pieces(PAWN, BLACK)`). -/
def pawnSquaresAll (b : Board) : List Nat :=
  (List.range 64).filter fun s =>
    match b.pieceAt s with
    | some p => p.pieceType == PieceType.pawn
    | none => false

/-- Squares holding a pawn of colour `c`, ascending (`board.pieces(PAWN, c)`). -/
def pawnSquaresOf (b : Board) (c : Bool) : List Nat :=
  (List.range 64).filter fun s => b.pieceAt s == some ⟨PieceType.pawn, c⟩

/-- Embeds `_analyze_piece_count`: `1.0 - piece_count / 32.0`. -/
def analyzePieceCount (b : Board) : ℚ :=
  1 - (b.pieceCount : ℚ) / 32

/-- Embeds `_analyze_pawn_structure`: per pawn `+0.1` for a central square
and `+0.2` when isolated, clamped by `min(1.0, ·)`. -/
def analyzePawnStructure (b : Board) : ℚ :=
  let complexity := (pawnSquaresAll b).foldl (fun acc s =>
    let acc1 := if 2 ≤ s % 8 ∧ s % 8 ≤ 5 ∧ 2 ≤ s / 8 ∧ s / 8 ≤ 5
                then acc + 1/10 else acc
    if isIsolatedPawn b s then acc1 + 1/5 else acc1) 0
  min 1 complexity

/-- Embeds `_analyze_center_control`: `+0.25` per occupied square among
e4, e5, d4, d5 (squares 28, 36, 27, 35). -/
def analyzeCenterControl (b : Board) : ℚ :=
  ([28, 36, 27, 35] : List Nat).foldl
    (fun acc s => if (b.pieceAt s).isSome then acc + 1/4 else acc) 0

/-- Embeds `_analyze_development`: `min(1.0, move_count / 20.0)`. -/
def analyzeDevelopment (b : Board) : ℚ :=
  min 1 ((b.moveCount : ℚ) / 20)

/-- Embeds `board.king(color)`: the square of the king of colour `c` (legal
boards hold exactly one king per side). -/
def kingSquare (b : Board) (c : Bool) : Option Nat :=
  ((List.range 64).filter fun s => b.pieceAt s == some ⟨PieceType.king, c⟩).head?

/-- Embeds `_analyze_king_safety`: `+0.5` per king whose file lies in `2..5`. -/
def analyzeKingSafety (b : Board) : ℚ :=
  let score := fun (c : Bool) =>
    match kingSquare b c with
    | some s => if 2 ≤ s % 8 ∧ s % 8 ≤ 5 then (1 : ℚ)/2 else 0
    | none => 0
  score true + score false

/-- Number of board squares holding a piece whose kind is listed in `pts`. -/
def countPieces (b : Board) (pts : List PieceType) : Nat :=
  (List.range 64).countP fun s =>
    match b.pieceAt s with
    | some p => pts.contains p.pieceType
    | none => false

/-- Embeds `_analyze_tactical_opportunities`: `+0.3` when in check, `+0.1`
per knight, `+0.05` per rook/bishop/queen, clamped by `min(1.0, ·)`. -/
def analyzeTacticalOpportunities (O : ChessOracle) (b : Board) : ℚ :=
  let check : ℚ := if O.isCheck b then 3/10 else 0
  let knights := countPieces b [PieceType.knight]
  let sliders := countPieces b [PieceType.rook, PieceType.bishop, PieceType.queen]
  min 1 (check + (knights : ℚ) * (1/10) + (sliders : ℚ) * (1/20))

/-- Embeds `_analyze_complexity`:
`min(1.0, (legal_moves / 50.0 + piece_activity / 32.0) / 2.0)` where
`piece_activity` counts occupied squares. -/
def analyzeComplexity (O : ChessOracle) (b : Board) : ℚ :=
  let complexity := (O.legalMoveCount b : ℚ) / 50
  let pieceActivity := ((List.range 64).countP fun s => (b.pieceAt s).isSome : ℚ)
  min 1 ((complexity + pieceActivity / 32) / 2)

/-- Piece values of `_analyze_material_balance`. -/
def pieceValue : PieceType → Nat
  | PieceType.pawn => 1
  | PieceType.knight => 3
  | PieceType.bishop => 3
  | PieceType.rook => 5
  | PieceType.queen => 9
  | PieceType.king => 0

/-- Total material value of colour `c` over the 64 squares. -/
def materialOf (b : Board) (c : Bool) : Nat :=
  ((List.range 64).map fun s =>
    match b.pieceAt s with
    | some p => if p.color == c then pieceValue p.pieceType else 0
    | none => 0).sum

/-- Embeds `_analyze_material_balance`:
`abs(white_material - black_material) / 39.0`, with no clamp. -/
def analyzeMaterialBalance (b : Board) : ℚ :=
  (((materialOf b true : ℤ) - (materialOf b false : ℤ)).natAbs : ℚ) / 39

/-- Embeds `_analyze_space_control`: `+0.0625` per occupied square of the
sixteen-square centre area c3..f6. -/
def analyzeSpaceControl (b : Board) : ℚ :=
  ([18, 19, 20, 21, 26, 27, 28, 29, 34, 35, 36, 37, 42, 43, 44, 45] : List Nat).foldl
    (fun acc s => if (b.pieceAt s).isSome then acc + 1/16 else acc) 0

/-- Consecutive same-colour pawns of file `f` at the listed ranks, stopping at
the first square that is not such a pawn (the `break` of the Python loop). -/
def chainUpCount (b : Board) (c : Bool) (f : Nat) : List Nat → Nat
  | [] => 0
  | r :: rest =>
    if b.pieceAt (r * 8 + f) == some ⟨PieceType.pawn, c⟩
    then 1 + chainUpCount b c f rest
    else 0

/-- Embeds `_get_pawn_chain_length`: 1 plus the run of same-colour pawns on
the same file at ranks above the pawn. -/
def pawnChainLength (b : Board) (s : Nat) (c : Bool) : Nat :=
  1 + chainUpCount b c (s % 8) (List.range' (s / 8 + 1) (7 - s / 8))

/-- Embeds `_analyze_pawn_chains`: sum of `chain_length / 8.0` over the pawns
of both colours, clamped by `min(1.0, ·)`. -/
def analyzePawnChains (b : Board) : ℚ :=
  let total := ([true, false] : List Bool).foldl (fun acc c =>
    (pawnSquaresOf b c).foldl
      (fun acc2 s => acc2 + (pawnChainLength b s c : ℚ) / 8) acc) 0
  min 1 total

/-- Embeds `_extract_features`: the ten-feature schema. -/
def extractFeatures (O : ChessOracle) (b : Board) : Features where
  piece_count := analyzePieceCount b
  pawn_structure := analyzePawnStructure b
  center_control := analyzeCenterControl b
  development := analyzeDevelopment b
  king_safety := analyzeKingSafety b
  tactical_opportunities := analyzeTacticalOpportunities O b
  position_complexity := analyzeComplexity O b
  material_balance := analyzeMaterialBalance b
  space_control := analyzeSpaceControl b
  pawn_chain_structure := analyzePawnChains b

/-- Position taxonomy of `advanced_hybrid_engine.PositionType`. -/
inductive PositionType where
  | OPENING | TACTICAL | STRATEGIC | ENDGAME | COMPLEX
  | SIMPLE | CLOSED | OPEN | CRITICAL
  deriving DecidableEq, Repr

/-- Embeds `_classify_position`: the ordered threshold rules, first match
wins. -/
def classifyPosition (b : Board) (f : Features) : PositionType :=
  if b.moveCount ≤ 8 then PositionType.OPENING
  else if f.piece_count ≥ 8/10 then PositionType.ENDGAME
  else if f.pawn_structure ≥ 7/10 ∧ f.center_control ≤ 3/10 ∧
          f.position_complexity ≥ 6/10 then PositionType.CLOSED
  else if f.tactical_opportunities ≥ 7/10 ∨ f.material_balance ≥ 5/10 then
    PositionType.CRITICAL
  else if f.tactical_opportunities ≥ 5/10 then PositionType.TACTICAL
  else if f.pawn_structure ≥ 6/10 ∧ f.space_control ≥ 5/10 then
    PositionType.STRATEGIC
  else if f.position_complexity ≥ 7/10 then PositionType.COMPLEX
  else if f.center_control ≥ 5/10 then PositionType.OPEN
  else PositionType.SIMPLE

/-- Embeds `_calculate_time_allocation`: base 2.0 s, `×1.5` when complexity
is at least 0.7, `×2.0` when Critical, `×0.7` when Endgame. -/
def calcTimeAllocation (pt : PositionType) (f : Features) : ℚ :=
  let base : ℚ := 2
  let base := if f.position_complexity ≥ 7/10 then base * (3/2) else base
  let base := if pt = PositionType.CRITICAL then base * 2 else base
  let base := if pt = PositionType.ENDGAME then base * (7/10) else base
  base

/-- Embeds `_calculate_depth_allocation`: base 20 plies, `+10` when
complexity is at least 0.7, `+15` when Critical, `+5` when Endgame. -/
def calcDepthAllocation (pt : PositionType) (f : Features) : Nat :=
  let base := 20
  let base := if f.position_complexity ≥ 7/10 then base + 10 else base
  let base := if pt = PositionType.CRITICAL then base + 15 else base
  let base := if pt = PositionType.ENDGAME then base + 5 else base
  base

/-!
Move-source selection, `ChessEngine.get_move` of `engine_wrapper.py`.
Configuration values come from `config.py`: `SYZYGY_CONFIG["probe_limit"] = 6`,
`BOOK_CONFIG["max_book_moves"] = 15`, `GAME_CONFIG["book_probability"] = 0.8`.
-/

/-- The three move sources consulted by `get_move`, in priority order. -/
inductive Source where
  | tablebase | book | engine
  deriving DecidableEq, Repr

/-- The external collaborators of `get_move`: availability flags
(`self.tablebase`, `self.book`, `self.engine` being non-`None`) and the move
each source yields for a board (`none` when the source produces no move,
including lookup misses and collaborator errors, which the Python code turns
into `None` via its `except` handlers). -/
structure Collaborators where
  hasTablebase : Bool
  tablebaseMove : Board → Option String
  hasBook : Bool
  bookMove : Board → Option String
  hasEngine : Bool
  engineMove : Board → Option String

/-- Embeds `_should_use_tablebase`: tablebase loaded and piece count at most
the probe limit 6. -/
def shouldUseTablebase (C : Collaborators) (b : Board) : Bool :=
  C.hasTablebase && (b.pieceCount ≤ 6)

/-- Embeds `_should_use_book` with the per-call draw `r` of
`random.random()` made explicit: book loaded, fewer than 15 half-moves
played, and `r < 0.8`. -/
def shouldUseBook (C : Collaborators) (r : ℚ) (b : Board) : Bool :=
  C.hasBook && (b.moveCount < 15) && (r < 8/10)

/-- Stage 3 of `get_move`: the engine, when available.  The second component
records which sources were consulted. -/
def engineStage (C : Collaborators) (b : Board) : Option String × List Source :=
  if C.hasEngine then
    match C.engineMove b with
    | some m => (some m, [Source.engine])
    | none => (none, [Source.engine])
  else (none, [])

/-- Stage 2 of `get_move`: the opening book, falling through to the engine
stage when it is skipped or yields no move. -/
def bookStage (C : Collaborators) (r : ℚ) (b : Board) : Option String × List Source :=
  if shouldUseBook C r b then
    match C.bookMove b with
    | some m => (some m, [Source.book])
    | none =>
      let rest := engineStage C b
      (rest.1, Source.book :: rest.2)
  else engineStage C b

/-- Embeds `get_move`: `None` for finished games, otherwise tablebase, then
opening book, then engine, each consulted only when eligible, falling through
on a missing move; `none` when every source fails.  The second component
records which sources were consulted. -/
def getMove (O : ChessOracle) (C : Collaborators) (r : ℚ) (b : Board) :
    Option String × List Source :=
  if O.isGameOver b then (none, [])
  else if shouldUseTablebase C b then
    match C.tablebaseMove b with
    | some m => (some m, [Source.tablebase])
    | none =>
      let rest := bookStage C r b
      (rest.1, Source.tablebase :: rest.2)
  else bookStage C r b

/-!
Opening-book weighted selection, `_get_book_move` of `engine_wrapper.py`.
-/

/-- A polyglot book entry: move plus integer weight. -/
abbrev BookEntry := String × Nat

/-- Total weight of a list of book entries. -/
def totalWeight (es : List BookEntry) : Nat :=
  (es.map fun e => e.2).sum

/-- The cumulative-weight scan of `_get_book_move`: walks the entries keeping
a running total `acc` and returns the first entry whose cumulative weight is
at least the draw `r` (the Python test is `r <= cumulative_weight`). -/
def weightedPickEntry (r : ℚ) : List BookEntry → ℚ → Option BookEntry
  | [], _ => none
  | e :: rest, acc =>
    if r ≤ acc + (e.2 : ℚ) then some e else weightedPickEntry r rest (acc + (e.2 : ℚ))

/-- Embeds `_get_book_move` on the entry list found for the position, with
the two random draws explicit: `r` for `random.uniform(0, total_weight)` and
`choice` for `random.choice` (modelled as an index, reduced modulo the number
of entries).  Empty entry list gives `None`; total weight 0 falls back to a
uniform choice; otherwise the cumulative scan runs, with `entries[0].move` as
the final fallback. -/
def getBookMove (es : List BookEntry) (r : ℚ) (choice : Nat) : Option String :=
  match es with
  | [] => none
  | e0 :: _ =>
    if totalWeight es = 0 then some (es.getD (choice % es.length) e0).1
    else
      match weightedPickEntry r es 0 with
      | some e => some e.1
      | none => some e0.1

/-!
Mistake ledger and analysis cache, `deep_learning_chess_system.py`.
-/

/-- A mistake record as stored by `record_mistake` (the in-memory index kept
in `mistakes_database`). -/
structure MistakeRecord where
  move_played : String
  best_move : String
  mistake_type : String
  severity : ℚ
  deriving DecidableEq, Repr

/-- In-memory mistake index: association list from position hash to the
records for that hash. -/
abbrev MistakeDB := List (List Nat × List MistakeRecord)

/-- Lookup of the records stored for a hash (`position_hash in
self.mistakes_database`). -/
def dbLookup (db : MistakeDB) (h : List Nat) : Option (List MistakeRecord) :=
  (db.find? fun p => p.1 == h).map fun p => p.2

/-- Severity classification of `record_mistake` from
`diff = best_evaluation - move_evaluation`: blunder above 2.0, mistake above
1.0, inaccuracy above 0.5, else minor, with the stored severity weights. -/
def classifyMistake (diff : ℚ) : String × ℚ :=
  if diff > 2 then ("blunder", 1)
  else if diff > 1 then ("mistake", 7/10)
  else if diff > 1/2 then ("inaccuracy", 2/5)
  else ("minor", 1/5)

/-- Appends a record to the bucket of hash `h`, creating the bucket when the
hash is new. -/
def dbAppend (db : MistakeDB) (h : List Nat) (rec : MistakeRecord) : MistakeDB :=
  match db with
  | [] => [(h, [rec])]
  | (k, rs) :: rest =>
    if k = h then (k, rs ++ [rec]) :: rest else (k, rs) :: dbAppend rest h rec

/-- Embeds `record_mistake`: derives the position hash and the severity class
and appends the record to the in-memory index (the SAN strings of the two
moves are taken as given; the SQLite write carries the same data). -/
def recordMistake (db : MistakeDB) (b : Board) (moveSan : String)
    (moveEval : ℚ) (bestSan : String) (bestEval : ℚ) : MistakeDB :=
  let cls := classifyMistake (bestEval - moveEval)
  dbAppend db (positionHash b) ⟨moveSan, bestSan, cls.1, cls.2⟩

/-- The moves flagged for a hash: the `bad_moves` set of
`get_best_move_with_learning` (empty when the hash has no records). -/
def badMoves (db : MistakeDB) (h : List Nat) : List String :=
  match dbLookup db h with
  | none => []
  | some ms => ms.map fun m => m.move_played

/-- Embeds the filtering step of `get_best_move_with_learning` (lines
457-476): when the hash has recorded mistakes, drop every candidate whose
move was previously played as a mistake; keep the original ranked list when
nothing survives (or when the hash has no records). -/
def filterBestMoves (db : MistakeDB) (h : List Nat)
    (bestMoves : List (String × ℚ)) : List (String × ℚ) :=
  match dbLookup db h with
  | none => bestMoves
  | some ms =>
    let bad := ms.map fun m => m.move_played
    let filtered := bestMoves.filter fun p => !(bad.contains p.1)
    if filtered.isEmpty then bestMoves else filtered

/-- Embeds the selection step of `get_best_move_with_learning` (lines
478-487): the move returned is the head of the filtered ranked list,
assuming the SAN parse succeeds (the fallback to an arbitrary legal move on a
parse failure is `python-chess` interop outside this model). -/
def selectMove (db : MistakeDB) (h : List Nat)
    (bestMoves : List (String × ℚ)) : Option String :=
  (filterBestMoves db h bestMoves).head?.map fun p => p.1

/-- A cached analysis entry of `positions_cache`: evaluation plus ranked best
moves. -/
structure CachedAnalysis where
  evaluation : ℚ
  best_moves : List (String × ℚ)
  deriving DecidableEq, Repr

/-- The analysis cache: association list from position hash to cached entry. -/
abbrev PositionCache := List (List Nat × CachedAnalysis)

/-- Cache lookup by position hash. -/
def cacheLookup (cache : PositionCache) (h : List Nat) : Option CachedAnalysis :=
  (cache.find? fun p => p.1 == h).map fun p => p.2

/-- Embeds the caching skeleton of `deep_position_analysis` (lines 326-419):
on a cache hit the cached evaluation and best moves are returned and the
engine is not consulted; on a miss the engine result is used when the engine
is available, else the fallback analysis (evaluation 0.0, no best moves).
The boolean records whether the search engine was queried. -/
def deepPositionAnalysis (cache : PositionCache) (b : Board)
    (hasEngine : Bool) (engineResult : CachedAnalysis) : CachedAnalysis × Bool :=
  match cacheLookup cache (positionHash b) with
  | some c => (⟨c.evaluation, c.best_moves⟩, false)
  | none =>
    if hasEngine then (engineResult, true)
    else (⟨0, []⟩, false)

/-!
Concrete instances used to evaluate the definitions on explicit inputs.
-/

/-- White pawn. -/
def wp : Option Piece := some ⟨PieceType.pawn, true⟩
/-- White knight. -/
def wn : Option Piece := some ⟨PieceType.knight, true⟩
/-- White bishop. -/
def wb : Option Piece := some ⟨PieceType.bishop, true⟩
/-- White rook. -/
def wr : Option Piece := some ⟨PieceType.rook, true⟩
/-- White queen. -/
def wq : Option Piece := some ⟨PieceType.queen, true⟩
/-- White king. -/
def wk : Option Piece := some ⟨PieceType.king, true⟩
/-- Black pawn. -/
def bp : Option Piece := some ⟨PieceType.pawn, false⟩
/-- Black knight. -/
def bn : Option Piece := some ⟨PieceType.knight, false⟩
/-- Black bishop. -/
def bb : Option Piece := some ⟨PieceType.bishop, false⟩
/-- Black rook. -/
def br : Option Piece := some ⟨PieceType.rook, false⟩
/-- Black queen. -/
def bq : Option Piece := some ⟨PieceType.queen, false⟩
/-- Black king. -/
def bk : Option Piece := some ⟨PieceType.king, false⟩
/-- Empty square. -/
def eS : Option Piece := none

/-- Piece placement of the standard initial position. -/
def startPlacement : List (Option Piece) :=
  [wr, wn, wb, wq, wk, wb, wn, wr] ++ List.replicate 8 wp ++
    List.replicate 32 eS ++ List.replicate 8 bp ++
    [br, bn, bb, bq, bk, bb, bn, br]

/-- The standard initial position (fullmove 1, halfmove clock 0). -/
def startBoard : Board :=
  ⟨startPlacement, true, 15, none, 0, 1⟩

/-- The same piece placement, side to move, castling rights and en-passant
rights as `startBoard`, but reached after 1.Nf3 Nf6 2.Ng1 Ng8: the halfmove
clock is 4 and the fullmove number 3. -/
def startBoardTransposed : Board :=
  ⟨startPlacement, true, 15, none, 4, 3⟩

/-- The initial position at fullmove number 10 (eighteen half-moves played),
used to exercise the post-opening classification rules. -/
def startBoardLate : Board :=
  ⟨startPlacement, true, 15, none, 0, 10⟩

/-- A three-piece position: white king e1, white rook a1, black king e8. -/
def kingsRookBoard : Board :=
  ⟨[wr] ++ List.replicate 3 eS ++ [wk] ++ List.replicate 55 eS ++ [bk] ++
    List.replicate 3 eS, true, 0, none, 0, 40⟩

/-- A reachable position where White holds two queens (one promoted), two
rooks, two bishops, two knights and seven pawns against a bare black king
(white Ra1 Nb1 Bc1 Qd1 Ke1 Bf1 Ng1 Rh1, pawns a2-g2, Qa3; black Kc8):
white material is 47 points and black material 0. -/
def promotedBoard : Board :=
  ⟨[wr, wn, wb, wq, wk, wb, wn, wr] ++ List.replicate 7 wp ++ [eS] ++ [wq] ++
    List.replicate 41 eS ++ [bk] ++ List.replicate 5 eS, true, 0, none, 0, 60⟩

/-- A concrete chess oracle: no game over, no check, twenty legal moves. -/
def quietOracle : ChessOracle :=
  ⟨fun _ => false, fun _ => false, fun _ => 20⟩

/-- A chess oracle reporting every position as game over. -/
def overOracle : ChessOracle :=
  ⟨fun _ => true, fun _ => false, fun _ => 0⟩

/-- Collaborators where every source is loaded, the tablebase yields a move
and the others yield none. -/
def tbColl : Collaborators :=
  ⟨true, fun _ => some "a1a8", true, fun _ => none, true, fun _ => none⟩

/-- Collaborators where every source is loaded and none yields a move. -/
def emptyColl : Collaborators :=
  ⟨true, fun _ => none, true, fun _ => none, true, fun _ => none⟩

/-- Hash of the standard initial position. -/
def startHash : List Nat := positionHash startBoard

/-- A mistake index flagging the move e4 for the initial position. -/
def e4FlaggedDB : MistakeDB :=
  [(startHash, [⟨"e4", "d4", "mistake", 7/10⟩])]
section FenInjective

theorem pieceDecode_pieceCode (x : Option Piece) : pieceDecode (pieceCode x) = x := by
  rcases x with _ | ⟨pt, c⟩
  · rfl
  · cases pt <;> cases c <;> rfl

theorem pieceCode_injective : Function.Injective pieceCode := by
  intro x y h
  have := congrArg pieceDecode h
  rwa [pieceDecode_pieceCode, pieceDecode_pieceCode] at this

theorem epCode_injective : Function.Injective epCode := by
  intro x y h
  rcases x with _ | a <;> rcases y with _ | b <;> simp [epCode] at h ⊢
  exact h

/-- The FEN serialization determines the whole board record. -/
theorem fen_injective : Function.Injective Board.fen := by
  intro b1 b2 h
  unfold Board.fen at h
  obtain ⟨hlen, htail⟩ := List.cons.injEq _ _ _ _ ▸ h
  have hmaplen : (b1.placement.map pieceCode).length = (b2.placement.map pieceCode).length := by
    simpa using hlen
  obtain ⟨hmap, hrest⟩ := List.append_inj htail hmaplen
  have hplace : b1.placement = b2.placement :=
    (List.map_injective_iff.mpr pieceCode_injective) hmap
  simp only [List.cons.injEq, and_true] at hrest
  obtain ⟨hturn, hcast, hep, hhalf, hfull⟩ := hrest
  have hturn2 : b1.turn = b2.turn := by
    cases h1 : b1.turn <;> cases h2 : b2.turn <;> simp [h1, h2] at hturn <;> rfl
  have hep2 : b1.epSquare = b2.epSquare := epCode_injective hep
  cases b1; cases b2
  simp only [Board.mk.injEq]
  exact ⟨hplace, hturn2, hcast, hep2, hhalf, hfull⟩

end FenInjective
/-- Claim C7: when the search engine is chosen, the time budget is 2.0 s
multiplied by 1.5 when `position_complexity` is at least 0.7, by 2.0 when the
tag is Critical and by 0.7 when the tag is Endgame, the factors composing
multiplicatively, and the depth budget is 20 plies plus 10 when
`position_complexity` is at least 0.7, plus 15 when Critical and plus 5 when
Endgame, the increments composing additively. -/
theorem C7_time_depth_allocation (pt : PositionType) (f : Features) :
    calcTimeAllocation pt f =
      2 * (if f.position_complexity ≥ 7/10 then (3 : ℚ)/2 else 1) *
        (if pt = PositionType.CRITICAL then 2 else 1) *
        (if pt = PositionType.ENDGAME then 7/10 else 1) ∧
    calcDepthAllocation pt f =
      20 + (if f.position_complexity ≥ 7/10 then 10 else 0) +
        (if pt = PositionType.CRITICAL then 15 else 0) +
        (if pt = PositionType.ENDGAME then 5 else 0) := by
  constructor
  · simp only [calcTimeAllocation]
    split_ifs <;> ring
  · simp only [calcDepthAllocation]
    split_ifs <;> norm_num

/-- Claim C6: classification is deterministic (boards with the same canonical
FEN serialization classify identically) and the ordered threshold rules are
evaluated first-match-wins; in particular a position with more than eight
half-moves played whose features satisfy both the Endgame rule and the
Critical rule classifies as Endgame, the earlier rule winning. -/
theorem C6_classify_deterministic_ordered :
    (∀ (O : ChessOracle) (b1 b2 : Board), b1.fen = b2.fen →
      classifyPosition b1 (extractFeatures O b1) =
        classifyPosition b2 (extractFeatures O b2)) ∧
    (∀ (b : Board) (f : Features), 8 < b.moveCount → f.piece_count ≥ 8/10 →
      (f.tactical_opportunities ≥ 7/10 ∨ f.material_balance ≥ 5/10) →
      classifyPosition b f = PositionType.ENDGAME) := by
  constructor
  · intro O b1 b2 h
    rw [fen_injective h]
  · intro b f hm hp _
    unfold classifyPosition
    rw [if_neg (by omega), if_pos hp]

/-- Witness for C6 at concrete inputs: the initial placement at fullmove 10
(eighteen half-moves) with a feature vector satisfying both the Endgame and
the Critical rule classifies as Endgame. -/
theorem C6_witness :
    classifyPosition startBoardLate (extractFeatures quietOracle startBoardLate) =
      classifyPosition startBoardLate (extractFeatures quietOracle startBoardLate) ∧
    classifyPosition startBoardLate ⟨8/10, 0, 0, 0, 0, 7/10, 0, 5/10, 0, 0⟩ =
      PositionType.ENDGAME :=
  ⟨C6_classify_deterministic_ordered.1 quietOracle startBoardLate startBoardLate rfl,
   C6_classify_deterministic_ordered.2 startBoardLate _ (by decide)
     (by norm_num) (Or.inl (by norm_num))⟩

/-- Claim C9: for a board that is already game over, `get_move` returns
`None` immediately and consults no source. -/
theorem C9_game_over_no_sources (O : ChessOracle) (C : Collaborators) (r : ℚ)
    (b : Board) (hgo : O.isGameOver b = true) :
    getMove O C r b = (none, []) := by
  simp [getMove, hgo]

/-- Witness for C9 at concrete inputs. -/
theorem C9_witness : getMove overOracle tbColl 0 startBoard = (none, []) :=
  C9_game_over_no_sources overOracle tbColl 0 startBoard rfl

/-- Claim C2: sources are consulted in fixed priority order.  For a live
position: a 3-piece position whose tablebase yields a move always returns the
tablebase move (no classification is involved); when the tablebase yields no
move and the book conditions hold (fewer than 15 half-moves, draw below 0.8,
book loaded) the book move is returned; when tablebase and book yield no
move the engine move is returned; and when every source yields no move the
result is `none`. -/
theorem C2_source_priority (O : ChessOracle) (C : Collaborators) (r : ℚ)
    (b : Board) (hgo : O.isGameOver b = false) :
    (∀ m, b.pieceCount = 3 → C.hasTablebase = true → C.tablebaseMove b = some m →
      getMove O C r b = (some m, [Source.tablebase])) ∧
    (∀ m, C.tablebaseMove b = none → C.hasBook = true → b.moveCount < 15 →
      r < 8/10 → C.bookMove b = some m → (getMove O C r b).1 = some m) ∧
    (∀ m, C.tablebaseMove b = none → C.bookMove b = none → C.hasEngine = true →
      C.engineMove b = some m → (getMove O C r b).1 = some m) ∧
    (C.tablebaseMove b = none → C.bookMove b = none → C.engineMove b = none →
      (getMove O C r b).1 = none) := by
  refine ⟨?_, ?_, ?_, ?_⟩
  · intro m hpc htb htm
    have he : shouldUseTablebase C b = true := by
      simp [shouldUseTablebase, htb, hpc]
    simp [getMove, hgo, he, htm]
  · intro m htm hbk hmc hr hbm
    have hb : shouldUseBook C r b = true := by
      simp [shouldUseBook, hbk, hmc, hr]
    cases he : shouldUseTablebase C b <;>
      simp [getMove, hgo, he, htm, bookStage, hb, hbm]
  · intro m htm hbm hen hem
    cases he : shouldUseTablebase C b <;>
      cases hb : shouldUseBook C r b <;>
        simp [getMove, hgo, he, htm, bookStage, hb, hbm, engineStage, hen, hem]
  · intro htm hbm hem
    cases he : shouldUseTablebase C b <;>
      cases hb : shouldUseBook C r b <;>
        cases hen : C.hasEngine <;>
          simp [getMove, hgo, he, htm, bookStage, hb, hbm, engineStage, hen, hem]

/-- Witness for C2 at concrete inputs: the three-piece rook endgame with a
tablebase move, and full exhaustion with collaborators that yield nothing. -/
theorem C2_witness :
    getMove quietOracle tbColl 0 kingsRookBoard = (some "a1a8", [Source.tablebase]) ∧
    (getMove quietOracle emptyColl 0 kingsRookBoard).1 = none :=
  ⟨(C2_source_priority quietOracle tbColl 0 kingsRookBoard rfl).1 "a1a8"
      (by decide) rfl rfl,
   (C2_source_priority quietOracle emptyColl 0 kingsRookBoard rfl).2.2.2 rfl rfl rfl⟩

/-- Claim C3: mistake filtering never empties a non-empty ranked candidate
list, and when every candidate is flagged as a previously recorded
`move_played` for the hash, the original unfiltered list is kept. -/
theorem C3_filter_never_empty (db : MistakeDB) (h : List Nat)
    (moves : List (String × ℚ)) (hne : moves ≠ []) :
    filterBestMoves db h moves ≠ [] ∧
    ((∀ p ∈ moves, p.1 ∈ badMoves db h) → filterBestMoves db h moves = moves) := by
  cases hdb : dbLookup db h with
  | none =>
    exact ⟨by simp [filterBestMoves, hdb, hne], fun _ => by simp [filterBestMoves, hdb]⟩
  | some ms =>
    constructor
    · by_cases hf : (moves.filter
          fun p => !((ms.map fun m => m.move_played).contains p.1)).isEmpty
      · simp only [filterBestMoves, hdb]
        rw [if_pos hf]
        exact hne
      · simp only [filterBestMoves, hdb]
        rw [if_neg hf]
        intro hnil
        rw [hnil] at hf
        simp at hf
    · intro hall
      have hfe : (moves.filter
          fun p => !((ms.map fun m => m.move_played).contains p.1)) = [] := by
        rw [List.filter_eq_nil_iff]
        intro p hp
        have hmem := hall p hp
        simp only [badMoves, hdb] at hmem
        simp [hmem]
      simp only [filterBestMoves, hdb]
      rw [hfe]
      simp

/-- Witness for C3 at concrete inputs: a single-candidate list whose only
move is flagged survives unchanged. -/
theorem C3_witness :
    filterBestMoves e4FlaggedDB startHash [("e4", 1/10)] ≠ [] ∧
    ((∀ p ∈ [(("e4" : String), (1 : ℚ)/10)], p.1 ∈ badMoves e4FlaggedDB startHash) →
      filterBestMoves e4FlaggedDB startHash [("e4", 1/10)] = [("e4", 1/10)]) :=
  C3_filter_never_empty e4FlaggedDB startHash [("e4", 1/10)] (by simp)

/-- Claim C5: the severity class is derived from
`diff = best_eval - move_eval` as blunder exactly when `diff > 2.0`, mistake
exactly when `1.0 < diff <= 2.0`, inaccuracy exactly when
`0.5 < diff <= 1.0`, else minor; and after recording
`(h, "e4", 0.1, "d4", 1.3)` the stored class is mistake and a subsequent
filtering for `h` excludes e4 and keeps d4. -/
theorem C5_severity_and_filtering :
    (∀ diff : ℚ,
      ((classifyMistake diff).1 = "blunder" ↔ 2 < diff) ∧
      ((classifyMistake diff).1 = "mistake" ↔ 1 < diff ∧ diff ≤ 2) ∧
      ((classifyMistake diff).1 = "inaccuracy" ↔ 1/2 < diff ∧ diff ≤ 1) ∧
      ((classifyMistake diff).1 = "minor" ↔ diff ≤ 1/2)) ∧
    (dbLookup (recordMistake [] startBoard "e4" (1/10) "d4" (13/10)) startHash =
      some [⟨"e4", "d4", "mistake", 7/10⟩] ∧
     filterBestMoves (recordMistake [] startBoard "e4" (1/10) "d4" (13/10))
       startHash [("e4", 1/10), ("d4", 13/10)] = [("d4", 13/10)]) := by
  constructor
  · intro diff
    unfold classifyMistake
    split_ifs with h1 h2 h3
    · exact ⟨iff_of_true rfl h1,
        iff_of_false (by decide) (by rintro ⟨-, hle⟩; linarith),
        iff_of_false (by decide) (by rintro ⟨-, hle⟩; linarith),
        iff_of_false (by decide) (by intro hle; linarith)⟩
    · exact ⟨iff_of_false (by decide) h1,
        iff_of_true rfl ⟨h2, not_lt.mp h1⟩,
        iff_of_false (by decide) (by rintro ⟨-, hle⟩; linarith),
        iff_of_false (by decide) (by intro hle; linarith)⟩
    · exact ⟨iff_of_false (by decide) h1,
        iff_of_false (by decide) (by rintro ⟨hgt, -⟩; exact h2 hgt),
        iff_of_true rfl ⟨h3, not_lt.mp h2⟩,
        iff_of_false (by decide) (by intro hle; linarith)⟩
    · exact ⟨iff_of_false (by decide) h1,
        iff_of_false (by decide) (by rintro ⟨hgt, -⟩; exact h2 hgt),
        iff_of_false (by decide) (by rintro ⟨hgt, -⟩; exact h3 hgt),
        iff_of_true rfl (not_lt.mp h3)⟩
  · have hc : classifyMistake ((13 : ℚ)/10 - 1/10) = ("mistake", 7/10) := by
      unfold classifyMistake
      norm_num
    have hrec : recordMistake [] startBoard "e4" (1/10) "d4" (13/10) =
        [(startHash, [⟨"e4", "d4", "mistake", 7/10⟩])] := by
      unfold recordMistake
      rw [hc]
      rfl
    constructor
    · rw [hrec]
      simp [dbLookup]
    · rw [hrec]
      simp [filterBestMoves, dbLookup, List.find?, List.filter]

/-- Witness for C5: difference 1.2 classifies as mistake through the
characterization. -/
theorem C5_witness : (classifyMistake ((13 : ℚ)/10 - 1/10)).1 = "mistake" :=
  ((C5_severity_and_filtering.1 ((13 : ℚ)/10 - 1/10)).2.1).mpr (by norm_num)

/-- Counterexample to claim C10 as stated: when every candidate is flagged,
the over-filtering guard restores the original list, so the move returned is
the original top candidate even though it is flagged — it is not "the
highest-ranked candidate not previously flagged", since no unflagged
candidate exists yet a move is still returned. -/
theorem C10_counterexample :
    selectMove e4FlaggedDB startHash [("e4", 1/10)] = some "e4" ∧
    "e4" ∈ badMoves e4FlaggedDB startHash := by
  constructor
  · simp [selectMove, filterBestMoves, dbLookup, e4FlaggedDB, List.find?,
      List.filter]
  · simp [badMoves, dbLookup, e4FlaggedDB, List.find?]

/-- Claim C10 as amended: the surviving candidates always form an in-order
subsequence of the original ranked list, and whenever at least one candidate
is unflagged the returned move is the highest-ranked unflagged candidate
(the head of the flag-filtered list); only when every candidate is flagged
does the original head come back. -/
theorem C10_filter_preserves_order (db : MistakeDB) (h : List Nat)
    (moves : List (String × ℚ)) :
    (filterBestMoves db h moves).Sublist moves ∧
    ((∃ p ∈ moves, p.1 ∉ badMoves db h) →
      selectMove db h moves =
        ((moves.filter fun p => !((badMoves db h).contains p.1)).head?.map
          fun p => p.1)) := by
  cases hdb : dbLookup db h with
  | none =>
    refine ⟨by simp [filterBestMoves, hdb], fun _ => ?_⟩
    have hb : badMoves db h = [] := by simp [badMoves, hdb]
    rw [hb]
    simp [selectMove, filterBestMoves, hdb]
  | some ms =>
    have hb : badMoves db h = ms.map fun m => m.move_played := by
      simp [badMoves, hdb]
    constructor
    · by_cases hf : (moves.filter
          fun p => !((ms.map fun m => m.move_played).contains p.1)).isEmpty
      · simp only [filterBestMoves, hdb]
        rw [if_pos hf]
      · simp only [filterBestMoves, hdb]
        rw [if_neg hf]
        exact List.filter_sublist moves
    · rintro ⟨p, hp, hpb⟩
      rw [hb] at hpb
      have hmem : p ∈ moves.filter
          fun q => !((ms.map fun m => m.move_played).contains q.1) := by
        rw [List.mem_filter]
        exact ⟨hp, by simpa using hpb⟩
      have hf : (moves.filter
          fun q => !((ms.map fun m => m.move_played).contains q.1)).isEmpty = false := by
        have := List.ne_nil_of_mem hmem
        simpa [List.isEmpty_iff] using this
      rw [hb]
      simp only [selectMove, filterBestMoves, hdb]
      rw [hf]
      simp

/-- Witness for the amended C10 at concrete inputs: with e4 flagged and d4
unflagged, the returned move is the head of the flag-filtered list. -/
theorem C10_witness :
    selectMove e4FlaggedDB startHash [("e4", 1/10), ("d4", 13/10)] =
      (([("e4", (1 : ℚ)/10), ("d4", 13/10)].filter
        fun p => !((badMoves e4FlaggedDB startHash).contains p.1)).head?.map
          fun p => p.1) :=
  (C10_filter_preserves_order e4FlaggedDB startHash _).2
    ⟨("d4", 13/10), List.mem_cons_of_mem _ (List.mem_cons_self _ _),
      by simp [badMoves, dbLookup, e4FlaggedDB, List.find?]⟩

/-- Helper for C8: the cumulative scan only answers when the draw is at most
the accumulated total, so when the draw exceeds the running accumulator the
picked entry must carry positive weight. -/
theorem weightedPickEntry_pos_weight :
    ∀ (es : List BookEntry) (r acc : ℚ) (e : BookEntry), acc < r →
      weightedPickEntry r es acc = some e → 0 < e.2 := by
  intro es
  induction es with
  | nil => intro r acc e _ hpk; exact absurd hpk (by simp [weightedPickEntry])
  | cons e0 rest ih =>
    intro r acc e hacc hpk
    rw [weightedPickEntry] at hpk
    by_cases hle : r ≤ acc + (e0.2 : ℚ)
    · rw [if_pos hle] at hpk
      cases hpk
      have : (0 : ℚ) < (e0.2 : ℚ) := by linarith
      exact_mod_cast this
    · rw [if_neg hle] at hpk
      exact ih r (acc + (e0.2 : ℚ)) e (by linarith [not_le.mp hle]) hpk

/-- Helper for C8: when the draw is at most the accumulator plus the total
weight of the remaining entries, the cumulative scan picks some entry. -/
theorem weightedPickEntry_total :
    ∀ (es : List BookEntry) (r acc : ℚ), es ≠ [] →
      r ≤ acc + (totalWeight es : ℚ) →
      ∃ e, weightedPickEntry r es acc = some e := by
  intro es
  induction es with
  | nil => intro r acc hne _; exact absurd rfl hne
  | cons e0 rest ih =>
    intro r acc _ hle
    rw [weightedPickEntry]
    by_cases h0 : r ≤ acc + (e0.2 : ℚ)
    · exact ⟨e0, by rw [if_pos h0]⟩
    · cases rest with
      | nil =>
        exfalso
        apply h0
        have : (totalWeight [e0] : ℚ) = (e0.2 : ℚ) := by
          simp [totalWeight]
        rw [this] at hle
        exact hle
      | cons e1 tail =>
        have htw : (totalWeight (e0 :: e1 :: tail) : ℚ) =
            (e0.2 : ℚ) + (totalWeight (e1 :: tail) : ℚ) := by
          simp [totalWeight]
        obtain ⟨e, he⟩ := ih r (acc + (e0.2 : ℚ)) (by simp)
          (by rw [htw] at hle; linarith)
        exact ⟨e, by rw [if_neg h0]; exact he⟩

/-- Counterexample to claim C8 as stated: with entries of weights 0 and 5 and
the uniform draw landing on 0 (a point of `[0, total_weight)`), the
acceptance test `r <= cumulative_weight` selects the leading entry of weight
0, so a zero-weight entry can be selected. -/
theorem C8_counterexample :
    weightedPickEntry 0 [("a2a4", 0), ("e2e4", 5)] 0 = some ("a2a4", 0) ∧
    getBookMove [("a2a4", 0), ("e2e4", 5)] 0 0 = some "a2a4" ∧
    0 < totalWeight [(("a2a4" : String), 0), ("e2e4", 5)] := by
  refine ⟨?_, ?_, by decide⟩
  · rw [weightedPickEntry, if_pos (by norm_num)]
  · rw [getBookMove, if_neg (by decide),
      weightedPickEntry, if_pos (by norm_num)]

/-- Claim C8 as amended: for a non-empty entry list of positive total weight
the book move is chosen by the cumulative-weight scan against the uniform
draw, and whenever the draw is strictly positive (every point of
`(0, total_weight]`) the selected entry has non-zero weight; a zero-weight
entry can only be selected when the draw is exactly 0 (or through the
uniform-choice fallback when the total weight is 0). -/
theorem C8_weighted_selection (es : List BookEntry) (r : ℚ) (c : Nat)
    (hne : es ≠ []) (htw : 0 < totalWeight es) (hr0 : 0 < r)
    (hrt : r ≤ (totalWeight es : ℚ)) :
    ∃ e, weightedPickEntry r es 0 = some e ∧ getBookMove es r c = some e.1 ∧
      0 < e.2 := by
  obtain ⟨e, he⟩ := weightedPickEntry_total es r 0 hne (by simpa using hrt)
  refine ⟨e, he, ?_, weightedPickEntry_pos_weight es r 0 e hr0 he⟩
  cases es with
  | nil => exact absurd rfl hne
  | cons e0 rest =>
    rw [getBookMove, if_neg (Nat.pos_iff_ne_zero.mp htw), he]

/-- Witness for the amended C8 at concrete inputs: draw 3 against the
weights 0 and 5 picks an entry of positive weight. -/
theorem C8_witness :
    ∃ e, weightedPickEntry 3 [(("a2a4" : String), 0), ("e2e4", 5)] 0 = some e ∧
      getBookMove [("a2a4", 0), ("e2e4", 5)] 3 0 = some e.1 ∧ 0 < e.2 :=
  C8_weighted_selection _ 3 0 (by simp) (by decide) (by norm_num)
    (by norm_num [totalWeight])

/-- Counterexample to claim C1 as stated: two board states with identical
piece placement, side to move, castling rights and en-passant rights (the
initial position, and the same position reached after 1.Nf3 Nf6 2.Ng1 Ng8)
receive different position hashes, because the hashed FEN string also
contains the halfmove clock and the fullmove number, which differ. -/
theorem C1_counterexample :
    startBoard.placement = startBoardTransposed.placement ∧
    startBoard.turn = startBoardTransposed.turn ∧
    startBoard.castling = startBoardTransposed.castling ∧
    startBoard.epSquare = startBoardTransposed.epSquare ∧
    positionHash startBoard ≠ positionHash startBoardTransposed := by
  refine ⟨rfl, rfl, rfl, rfl, ?_⟩
  decide

/-- Claim C1 as amended: board states agreeing on piece placement, side to
move, castling rights, en-passant rights and additionally the halfmove clock
and the fullmove number (a full FEN match) share the same position hash, and
a later analysis of a position whose hash is cached returns the cached
evaluation and ranked best moves without querying the search engine. -/
theorem C1_hash_transposition_and_cache :
    (∀ b1 b2 : Board, b1.placement = b2.placement → b1.turn = b2.turn →
      b1.castling = b2.castling → b1.epSquare = b2.epSquare →
      b1.halfmoveClock = b2.halfmoveClock →
      b1.fullmoveNumber = b2.fullmoveNumber →
      positionHash b1 = positionHash b2) ∧
    (∀ (cache : PositionCache) (b : Board) (c : CachedAnalysis) (he : Bool)
      (er : CachedAnalysis), cacheLookup cache (positionHash b) = some c →
      deepPositionAnalysis cache b he er = (⟨c.evaluation, c.best_moves⟩, false)) := by
  constructor
  · intro b1 b2 h1 h2 h3 h4 h5 h6
    unfold positionHash Board.fen
    rw [h1, h2, h3, h4, h5, h6]
  · intro cache b c he er hc
    unfold deepPositionAnalysis
    rw [hc]

/-- Witness for the amended C1 at concrete inputs: a cache holding the
initial position returns its entry with the engine-queried flag false. -/
theorem C1_witness :
    positionHash startBoardTransposed = positionHash startBoardTransposed ∧
    deepPositionAnalysis [(startHash, ⟨1/2, [("e4", 1/2)]⟩)] startBoard true
      ⟨0, []⟩ = (⟨1/2, [("e4", 1/2)]⟩, false) :=
  ⟨C1_hash_transposition_and_cache.1 startBoardTransposed startBoardTransposed
      rfl rfl rfl rfl rfl rfl,
   C1_hash_transposition_and_cache.2 _ startBoard ⟨1/2, [("e4", 1/2)]⟩ true
     ⟨0, []⟩ (by simp [cacheLookup, startHash, List.find?])⟩

/-- Claim C4 evaluated at a failing input: for the reachable position
`promotedBoard` (two queens after a promotion, 47 material points against a
bare king) the extracted `material_balance` feature equals `47/39`, which
exceeds 1 — the code divides the absolute material difference by 39 without
clamping, so the claimed range `[0, 1]` is violated while every other
feature is clamped by `min(1.0, ·)`. -/
theorem C4_material_balance_unclamped :
    (extractFeatures quietOracle promotedBoard).material_balance = 47/39 ∧
    1 < (extractFeatures quietOracle promotedBoard).material_balance := by
  have hw : materialOf promotedBoard true = 47 := by decide
  have hb : materialOf promotedBoard false = 0 := by decide
  have hval : (extractFeatures quietOracle promotedBoard).material_balance = 47/39 := by
    show analyzeMaterialBalance promotedBoard = 47/39
    unfold analyzeMaterialBalance
    rw [hw, hb]
    norm_num
  exact ⟨hval, by rw [hval]; norm_num⟩
